import Mathlib

/-!
Verification of the data-preparation core of ByteGen
(`src/c2nl/inputters/utils_two_encoder.py`).

The Python module is shallowly embedded below: pure string/list
manipulation becomes Lean functions on `List Char` / `List String`,
Python `None` becomes `Option`, the `assert` in `load_data` becomes an
`Except` error, and `collections.Counter` becomes an association list
kept in first-seen (insertion) order whose `most_common` is a stable
descending sort by count, matching CPython's documented behaviour
(`sorted(..., key=count, reverse=True)` is stable, and
`heapq.nlargest` is its prefix).

External collaborators that are part of the repository but not among
the provided sources (the `Vocabulary` container, the `Code`/`Summary`
record types, the constant lookup tables and special-symbol strings)
are modelled from the specification, as marked in their doc comments.
-/

namespace ByteGen

/-! ## Python string primitives -/

/-- Whitespace-splitting of a character list, accumulating the current
word in reverse: the model of Python `str.split()` (split on runs of
whitespace, no empty tokens, leading/trailing whitespace dropped). -/
def splitAux (cur : List Char) : List Char → List (List Char)
  | [] => if cur = [] then [] else [cur.reverse]
  | c :: cs =>
    if c.isWhitespace then
      if cur = [] then splitAux [] cs else cur.reverse :: splitAux [] cs
    else splitAux (c :: cur) cs

/-- Model of Python `str.split()` on a `String`. -/
def pySplit (s : String) : List String :=
  (splitAux [] s.data).map fun w => String.mk w

/-- Model of Python `str.lower()` (ASCII case folding, as in Lean's
`Char.toLower`; the claims below never depend on the exact case map). -/
def pyToLower (s : String) : String :=
  String.mk (s.data.map Char.toLower)

/-- Model of Python `str.strip()`: drop leading and trailing whitespace. -/
def pyStrip (s : String) : String :=
  String.mk (((s.data.dropWhile Char.isWhitespace).reverse.dropWhile
    Char.isWhitespace).reverse)

/-- Model of Python `' '.join(tokens)`. -/
def joinSpace (l : List String) : String :=
  String.intercalate " " l

/-! ## Modelled external collaborators -/

/-- Modelled from the spec: the literal begin-of-sequence special-symbol
string (`BOS_WORD` from `c2nl.inputters.constants`, not among the
provided sources). The claims below never depend on its exact value. -/
def BOS_WORD : String := "<s>"

/-- Modelled from the spec: the literal end-of-sequence special-symbol
string (`EOS_WORD` from `c2nl.inputters.constants`). -/
def EOS_WORD : String := "</s>"

/-- Modelled from the spec: the literal padding special-symbol string
(`PAD_WORD` from `c2nl.inputters.constants`). -/
def PAD_WORD : String := "<blank>"

/-- Modelled from the spec: the literal unknown-token special-symbol
string (`UNK_WORD` from `c2nl.inputters.constants`). -/
def UNK_WORD : String := "<unk>"

/-- A tag-to-integer lookup table (a Python `dict` with string keys):
an association list with distinct keys.  `TOKEN_TYPE_MAP` and
`AST_TYPE_MAP` from `c2nl.inputters.constants` are not among the
provided sources, so the embedding is parameterised over the two
tables. -/
abbrev TagMap := List (String × Nat)

/-- Model of Python `d.get(k, default)` on a `TagMap`. -/
def tagGet (m : TagMap) (k : String) (d : Nat) : Nat :=
  match m.find? (fun p => p.1 == k) with
  | some p => p.2
  | none => d

/-- Modelled from the spec: the `Code` record type of `c2nl.objects`
(a plain attribute holder).  The `mask` attribute is only assigned when
the tag-mode is not subtoken, hence `Option`. -/
structure Code where
  text : String
  language : Nat
  tokens : List String
  type : List Nat
  mask : Option (List Nat)
deriving Repr, DecidableEq

/-- Modelled from the spec: the `Summary` record type of `c2nl.objects`
(a plain attribute holder with `prepend_token` / `append_token`). -/
structure Summary where
  text : String
  tokens : List String
deriving Repr, DecidableEq

/-- Modelled from the spec: `Summary.prepend_token` adds a token at the
front of the token sequence. -/
def Summary.prependToken (s : Summary) (w : String) : Summary :=
  { s with tokens := w :: s.tokens }

/-- Modelled from the spec: `Summary.append_token` adds a token at the
end of the token sequence. -/
def Summary.appendToken (s : Summary) (w : String) : Summary :=
  { s with tokens := s.tokens ++ [w] }

/-- The dictionary assembled and returned by `process_examples`
(keys `code`, `cfg`, `summary`). -/
structure Example where
  code : Code
  cfg : Code
  summary : Option Summary
deriving Repr, DecidableEq

/-! ## process_examples (lines 32-108) -/

/-- Lines 45-65 and 68-87 of `process_examples`: build one fragment
(code or cfg) from its text and optional tag string: split on
whitespace, reject on token/tag count mismatch, truncate tokens and
tags to the maximum length, reject when no tokens remain, map each tag
through the GIVEN lookup table with default `1`, and, when the given
tag-mode is not subtoken, compute the binary mask marking tags equal to
the literal marker `N`.  Note that the table is an argument: in the
source, `TAG_TYPE_MAP` is bound once at lines 57-58 from
`code_tag_type` and reused verbatim at line 85 for the cfg stream. -/
def buildFragment (tagTable : TagMap) (maskTagType : String) (langId : Nat)
    (text0 : String) (tag : Option String) (maxLen : Nat) : Option Code :=
  let tokens0 := pySplit text0
  let type0 : List String :=
    match tag with
    | none => []
    | some t => pySplit t
  if tag.isSome && (tokens0.length != type0.length) then none
  else
    let tokens := tokens0.take maxLen
    let ttype := type0.take maxLen
    if tokens.length == 0 then none
    else
      some { text := text0, language := langId, tokens := tokens,
             type := ttype.map (fun ct => tagGet tagTable ct 1),
             mask := if maskTagType != "subtoken" then
                 some (ttype.map fun ct => if ct == "N" then (1 : Nat) else 0)
               else none }

/-- Lines 89-100 of `process_examples`: build the summary from the
target string: lowercase when `uncase` is set, split on whitespace,
truncate to `max_tgt_len` only when `test_split` is false, reject when
no tokens remain, rejoin with single spaces as the canonical text, and
frame the token sequence with the begin/end markers. -/
def buildSummary (uncase testSplit : Bool) (maxTgtLen : Nat)
    (target : String) : Option Summary :=
  let summ := if uncase then pyToLower target else target
  let tokens0 := pySplit summ
  let tokens := if testSplit then tokens0 else tokens0.take maxTgtLen
  if tokens.length == 0 then none
  else
    some (Summary.appendToken
      (Summary.prependToken { text := joinSpace tokens, tokens := tokens }
        BOS_WORD) EOS_WORD)

/-- Lines 32-108: `process_examples`.  `TOKEN_TYPE_MAP` and
`AST_TYPE_MAP` are passed in as the first two arguments (they are
module-level constants in the source).  The single `TAG_TYPE_MAP`
selection at lines 57-58 (from `code_tag_type` alone) is reproduced
exactly: the same table is used for both the code and the cfg stream,
while the mask conditions use `code_tag_type` and `cfg_tag_type`
respectively. -/
def process_examples (TOKEN_TYPE_MAP AST_TYPE_MAP : TagMap) (langId : Nat)
    (source : String) (sourceTag : Option String)
    (cfgSource : String) (cfgTag : Option String)
    (target : Option String)
    (maxSrcLen maxCfgLen maxTgtLen : Nat)
    (codeTagType cfgTagType : String)
    (uncase testSplit : Bool) : Option Example :=
  let tagTable := if codeTagType == "subtoken" then TOKEN_TYPE_MAP else AST_TYPE_MAP
  match buildFragment tagTable codeTagType langId source sourceTag maxSrcLen with
  | none => none
  | some code =>
    match buildFragment tagTable cfgTagType langId cfgSource cfgTag maxCfgLen with
    | none => none
    | some cfg =>
      match target with
      | none => some { code := code, cfg := cfg, summary := none }
      | some tgt =>
        match buildSummary uncase testSplit maxTgtLen tgt with
        | none => none
        | some s => some { code := code, cfg := cfg, summary := some s }

/-! ## Counter model (collections.Counter) -/

/-- A `collections.Counter` with string keys: an association list of
(word, count) pairs with distinct keys, kept in first-seen (insertion)
order, as CPython dicts preserve insertion order. -/
abbrev Counter := List (String × Nat)

/-- Counting one element into a `Counter`: increment in place when the
key exists (order preserved), otherwise append at the end (new keys
appear in encounter order). -/
def counterAdd (c : Counter) (w : String) : Counter :=
  if c.any (fun p => p.1 == w) then
    c.map fun p => if p.1 == w then (p.1, p.2 + 1) else p
  else c ++ [(w, 1)]

/-- Model of `Counter.update(iterable)`: count each element in order. -/
def counterUpdate (c : Counter) (ws : List String) : Counter :=
  ws.foldl counterAdd c

/-- Insertion step of a stable descending sort by count: the new pair
goes in front of the first pair whose count is not larger, so among
equal counts the earlier-inserted pair stays first. -/
def insertDesc (p : String × Nat) : Counter → Counter
  | [] => [p]
  | q :: qs => if q.2 ≤ p.2 then p :: q :: qs else q :: insertDesc p qs

/-- Stable sort of a `Counter` by descending count: the model of
CPython's `sorted(items, key=count, reverse=True)` (stable; `reverse`
keeps ties in original, i.e. first-seen, order). -/
def sortDesc : Counter → Counter
  | [] => []
  | p :: ps => insertDesc p (sortDesc ps)

/-- Model of `Counter.most_common(n)`: the full stable descending
ranking when `n` is `None`, otherwise its first `n` entries
(`heapq.nlargest` is documented as that prefix). -/
def mostCommon (c : Counter) : Option Nat → Counter
  | none => sortDesc c
  | some n => (sortDesc c).take n

/-! ## load_words / build_word_dict (lines 188-230) -/

/-- The three field names `load_words` is called with
(`ex[field].tokens` in the source). -/
inductive Field where
  | code
  | cfg
  | summary
deriving Repr, DecidableEq

/-- Field access `ex[field].tokens` of the source.  A missing summary
raises in Python; the claims below only use populated fields, and the
model returns `[]` there. -/
def getTokens (ex : Example) : Field → List String
  | .code => ex.code.tokens
  | .cfg => ex.cfg.tokens
  | .summary =>
    match ex.summary with
    | some s => s.tokens
    | none => []

/-- Lines 191-201 of `load_words`: the combined frequency tally: for
every example and every requested field, normalize each token
(`Vocabulary.normalize`, passed in as `normalize` since the container
is not among the provided sources) and count it. -/
def loadWordsCount (normalize : String → String) (examples : List Example)
    (fields : List Field) : Counter :=
  examples.foldl
    (fun c ex => fields.foldl
      (fun c f => counterUpdate c ((getTokens ex f).map normalize)) c) []

/-- Line 204 of `load_words`: the adjusted `most_common` argument:
`dict_size - 2 if dict_size and dict_size > 2 else dict_size` (a
falsy `dict_size`, that is `None` or `0`, is passed through). -/
def adjustDictSize : Option Nat → Option Nat
  | none => none
  | some n => some (if 2 < n then n - 2 else n)

/-- Lines 188-207: `load_words`, up to the final `set(...)`: the
retained words in `most_common` ranking order.  The Python function
returns the SET of these words; this list is its contents (the keys of
a `Counter` are distinct, so there are no duplicates to collapse). -/
def load_words (normalize : String → String) (examples : List Example)
    (fields : List Field) (dictSize : Option Nat) : List String :=
  (mostCommon (loadWordsCount normalize examples fields)
    (adjustDictSize dictSize)).map Prod.fst

/-- Modelled from the spec: the external `Vocabulary` container, as a
word list in insertion order; the index assigned to a word is its
position in the list. -/
structure Vocabulary where
  words : List String
deriving Repr, DecidableEq

/-- Modelled from the spec: `Vocabulary(no_special_token)` construction:
empty, or pre-seeded with the two reserved padding/unknown symbols. -/
def Vocabulary.empty (noSpecialToken : Bool) : Vocabulary :=
  if noSpecialToken then ⟨[]⟩ else ⟨[PAD_WORD, UNK_WORD]⟩

/-- Modelled from the spec: `Vocabulary.add(word)`: append the word
(assigning it the next index) unless already present. -/
def Vocabulary.add (v : Vocabulary) (w : String) : Vocabulary :=
  if w ∈ v.words then v else ⟨v.words ++ [w]⟩

/-- The word-to-index assignment of a `Vocabulary`. -/
def Vocabulary.indexOf (v : Vocabulary) (w : String) : Nat :=
  v.words.indexOf w

/-- Lines 210-218: `build_word_dict`: iterate over the SET returned by
`load_words` and add each word to a fresh `Vocabulary`.  Iterating a
CPython set of strings visits its elements in an order determined by
the process's string-hash seed, not by the set's contents; that order
is modelled by the explicit argument `enum`, a reordering of the set's
contents (so a run of the program fixes one `enum` with
`enum l ~ l`). -/
def build_word_dict (enum : List String → List String)
    (normalize : String → String) (examples : List Example)
    (fields : List Field) (dictSize : Option Nat)
    (noSpecialToken : Bool) : Vocabulary :=
  (enum (load_words normalize examples fields dictSize)).foldl
    Vocabulary.add (Vocabulary.empty noSpecialToken)

/-! ## top_summary_words (lines 233-241) -/

/-- Lines 233-241: `top_summary_words`: count each summary token that,
after normalization, is a member of the given vocabulary (modelled from
the spec as a word list with plain membership), and return the `topK`
most common.  A missing summary raises in Python; the model counts
nothing for it. -/
def top_summary_words (normalize : String → String) (topK : Nat)
    (examples : List Example) (wordDict : List String) : Counter :=
  mostCommon
    (examples.foldl
      (fun c ex =>
        (match ex.summary with
         | some s => s.tokens
         | none => []).foldl
          (fun c w =>
            let w' := normalize w
            if w' ∈ wordDict then counterAdd c w' else c) c) [])
    (some topK)

/-! ## load_data (lines 111-168) -/

/-- One line-aligned tuple of the five streams, in the order of the
`zip` at line 147: source, source tag, cfg, cfg tag, target. -/
structure Tup where
  src : String
  srcTag : Option String
  cfg : String
  cfgTag : Option String
  tgt : Option String
deriving Repr, DecidableEq

/-- Model of Python `zip` over the five streams: stops at the shortest. -/
def zip5 : List String → List (Option String) → List String →
    List (Option String) → List (Option String) → List Tup
  | a :: as_, b :: bs, c :: cs, d :: ds, e :: es =>
    ⟨a, b, c, d, e⟩ :: zip5 as_ bs cs ds es
  | _, _, _, _, _ => []

/-- The configuration fields of `args` read by `load_data`. -/
structure Args where
  maxSrcLen : Nat
  maxCfgLen : Nat
  maxTgtLen : Nat
  codeTagType : String
  cfgTagType : String
  uncase : Bool
deriving Repr, DecidableEq

/-- Lines 146-167: the accumulation loop of `load_data`: for each
tuple, when the dataset name is recognized, delegate to
`process_examples` and append the example when one is produced; after
every line, stop as soon as the accepted count exceeds `maxExamples`
(unless `maxExamples` is the `-1` sentinel). -/
def loadLoop (T A : TagMap) (langId : Nat) (args : Args)
    (testSplit : Bool) (dsName : String) (maxExamples : Int) :
    List Tup → List Example → List Example
  | [], acc => acc
  | t :: ts, acc =>
    let acc' :=
      if dsName == "java" || dsName == "python" then
        match process_examples T A langId t.src t.srcTag t.cfg t.cfgTag t.tgt
          args.maxSrcLen args.maxCfgLen args.maxTgtLen
          args.codeTagType args.cfgTagType args.uncase testSplit with
        | some ex => acc ++ [ex]
        | none => acc
      else acc
    if maxExamples ≠ -1 ∧ maxExamples < (acc'.length : Int) then acc'
    else loadLoop T A langId args testSplit dsName maxExamples ts acc'

/-- Lines 111-168: `load_data`, at the level of already-read file
contents: each input file is a list of its lines (an absent optional
file is `none` and synthesizes a same-length list of `None`
placeholders, lines 128/135/142); every read line is stripped
(lines 116-140); the `assert` at line 144 compares the lengths of
`sources`, `source_tags`, `targets` and `cfg` (and of those only) and
is modelled as the `Except` error channel; the five streams are then
zipped positionally (stopping at the shortest) and folded by
`loadLoop`.  `langId` stands for `LANG_ID_MAP[DATA_LANG_MAP[dsName]]`
(constant tables not among the provided sources). -/
def load_data (T A : TagMap) (langId : Nat) (args : Args)
    (srcLines cfgLines : List String)
    (tgtLines srcTagLines cfgTagLines : Option (List String))
    (maxExamples : Int) (dsName : String) (testSplit : Bool) :
    Except String (List Example) :=
  let sources := srcLines.map pyStrip
  let cfg := cfgLines.map pyStrip
  let targets : List (Option String) :=
    match tgtLines with
    | some ls => ls.map fun l => some (pyStrip l)
    | none => List.replicate sources.length none
  let sourceTags : List (Option String) :=
    match srcTagLines with
    | some ls => ls.map fun l => some (pyStrip l)
    | none => List.replicate sources.length none
  let cfgTags : List (Option String) :=
    match cfgTagLines with
    | some ls => ls.map fun l => some (pyStrip l)
    | none => List.replicate sources.length none
  if sources.length = sourceTags.length ∧ sourceTags.length = targets.length
      ∧ targets.length = cfg.length then
    Except.ok (loadLoop T A langId args testSplit dsName maxExamples
      (zip5 sources sourceTags cfg cfgTags targets) [])
  else
    Except.error "unequal line counts across input files"

/-! ## Reject conditions (the claim-side characterization) -/

/-- Reject condition of the claims: a supplied tag string whose token
count differs from the content token count. -/
def rejectTagMisalign (text0 : String) : Option String → Bool
  | none => false
  | some t => (pySplit text0).length != (pySplit t).length

/-- Reject condition of the claims: zero content tokens after
truncation to the maximum length. -/
def rejectEmptyAfterTruncate (text0 : String) (maxLen : Nat) : Bool :=
  ((pySplit text0).take maxLen).length == 0

/-- Reject condition of the claims: a supplied target whose token
sequence is empty, after truncation to `max_tgt_len` when test-mode is
false. -/
def rejectTargetEmpty (uncase testSplit : Bool) (maxTgtLen : Nat) :
    Option String → Bool
  | none => false
  | some t =>
    let toks := pySplit (if uncase then pyToLower t else t)
    (if testSplit then toks else toks.take maxTgtLen).length == 0

theorem buildFragment_eq_none_iff (table : TagMap) (mtt : String)
    (lid : Nat) (text0 : String) (tag : Option String) (maxLen : Nat) :
    buildFragment table mtt lid text0 tag maxLen = none ↔
      (rejectTagMisalign text0 tag
        || rejectEmptyAfterTruncate text0 maxLen) = true := by
  cases tag with
  | none =>
    simp [buildFragment, rejectTagMisalign, rejectEmptyAfterTruncate]
    tauto
  | some t =>
    simp only [buildFragment, rejectTagMisalign, rejectEmptyAfterTruncate,
      Option.isSome_some, Bool.true_and, Bool.or_eq_true, bne_iff_ne,
      ne_eq, beq_iff_eq]
    by_cases h : (pySplit text0).length = (pySplit t).length
    · rw [if_neg (not_not_intro h)]
      by_cases h2 : (List.take maxLen (pySplit text0)).length = 0
      · simp [h2]
      · rw [if_neg h2]
        have hm : ¬ maxLen = 0 := by
          rw [List.length_take] at h2
          omega
        have ht : ¬ pySplit t = [] := by
          intro he
          rw [List.length_take] at h2
          rw [he] at h
          simp only [List.length_nil] at h
          omega
        simp [h, hm, ht]
    · rw [if_pos h]
      simp [h]

theorem buildSummary_eq_none_iff (uncase testSplit : Bool)
    (maxTgtLen : Nat) (target : String) :
    buildSummary uncase testSplit maxTgtLen target = none ↔
      rejectTargetEmpty uncase testSplit maxTgtLen (some target) = true := by
  simp only [buildSummary, rejectTargetEmpty, beq_iff_eq]
  split <;> simp_all <;> tauto

theorem buildFragment_some_rejects (table : TagMap) (mtt : String)
    (lid : Nat) (text0 : String) (tag : Option String) (maxLen : Nat)
    (c : Code) (h : buildFragment table mtt lid text0 tag maxLen = some c) :
    rejectTagMisalign text0 tag = false
      ∧ rejectEmptyAfterTruncate text0 maxLen = false := by
  have h' := (buildFragment_eq_none_iff table mtt lid text0 tag maxLen).not
  rw [h] at h'
  simp only [reduceCtorEq, false_iff, Bool.or_eq_true, not_or,
    Bool.not_eq_true] at h'
  exact h'.mp not_false

theorem buildSummary_some_reject (uncase testSplit : Bool)
    (maxTgtLen : Nat) (target : String) (s : Summary)
    (h : buildSummary uncase testSplit maxTgtLen target = some s) :
    rejectTargetEmpty uncase testSplit maxTgtLen (some target) = false := by
  have h' := (buildSummary_eq_none_iff uncase testSplit maxTgtLen target).not
  rw [h] at h'
  simp only [reduceCtorEq, false_iff, Bool.not_eq_true] at h'
  exact h'.mp not_false

/-- C5: `process_examples` returns no example if and only if one of the
reject conditions holds: a supplied code tag string whose token count
differs from the code token count, zero code tokens after truncation to
`max_src_len`, a supplied cfg tag string whose token count differs from
the cfg token count, zero cfg tokens after truncation to `max_cfg_len`,
or a supplied target whose token sequence is empty (after truncation to
`max_tgt_len` when test-mode is false); being a total function, it
raises no exception, and rejection at any step short-circuits the later
steps (the result is `none` as soon as any condition fires). -/
theorem process_examples_none_iff_reject (T A : TagMap) (langId : Nat)
    (source : String) (sourceTag : Option String)
    (cfgSource : String) (cfgTag : Option String) (target : Option String)
    (maxSrcLen maxCfgLen maxTgtLen : Nat) (codeTagType cfgTagType : String)
    (uncase testSplit : Bool) :
    process_examples T A langId source sourceTag cfgSource cfgTag target
        maxSrcLen maxCfgLen maxTgtLen codeTagType cfgTagType
        uncase testSplit = none ↔
      (rejectTagMisalign source sourceTag
        || rejectEmptyAfterTruncate source maxSrcLen
        || rejectTagMisalign cfgSource cfgTag
        || rejectEmptyAfterTruncate cfgSource maxCfgLen
        || rejectTargetEmpty uncase testSplit maxTgtLen target) = true := by
  rcases hc : buildFragment
      (if codeTagType == "subtoken" then T else A) codeTagType langId
      source sourceTag maxSrcLen with _ | code
  · have h1 := (buildFragment_eq_none_iff _ _ _ _ _ _).mp hc
    simp only [process_examples, hc]
    simp [h1]
  · have h1 := buildFragment_some_rejects _ _ _ _ _ _ _ hc
    rcases hf : buildFragment
        (if codeTagType == "subtoken" then T else A) cfgTagType langId
        cfgSource cfgTag maxCfgLen with _ | cfg
    · have h2 := (buildFragment_eq_none_iff _ _ _ _ _ _).mp hf
      simp only [process_examples, hc, hf]
      simp only [Bool.or_eq_true] at h2
      simp [h1.1, h1.2]
      tauto
    · have h2 := buildFragment_some_rejects _ _ _ _ _ _ _ hf
      rcases target with _ | tgt
      · simp only [process_examples, hc, hf]
        simp [h1.1, h1.2, h2.1, h2.2, rejectTargetEmpty]
      · rcases hs : buildSummary uncase testSplit maxTgtLen tgt with _ | s
        · have h3 := (buildSummary_eq_none_iff _ _ _ _).mp hs
          simp only [process_examples, hc, hf, hs]
          simp [h1.1, h1.2, h2.1, h2.2, h3]
        · have h3 := buildSummary_some_reject _ _ _ _ _ hs
          simp only [process_examples, hc, hf, hs]
          simp [h1.1, h1.2, h2.1, h2.2, h3]

/-- C1: evaluation of `process_examples` at a failing input: the two
tables are `TOKEN_TYPE_MAP = [(x, 5)]` and `AST_TYPE_MAP = []`, the cfg
stream is one token with tag `x`, `code_tag_type` is `ast` and
`cfg_tag_type` is `subtoken`.  The claim (and the spec's step 4) says
the cfg type must be looked up in the token-type table because
`cfg_tag_type` is subtoken, giving `[5]`; the code reuses the table
bound from `code_tag_type` at lines 57-58, so the AST table's default
produces `[1]`. -/
theorem process_examples_cfg_table_ignores_cfg_tag_type :
    ((process_examples [("x", 5)] [] 0 "a" none "w" (some "x") none 3 3 3
        "ast" "subtoken" false true).map fun e => e.cfg.type) = some [1]
      ∧ tagGet [("x", 5)] "x" 1 = 5 := by
  exact ⟨rfl, rfl⟩

theorem buildFragment_some_lengths (table : TagMap) (mtt : String)
    (lid : Nat) (text0 t : String) (maxLen : Nat) (c : Code)
    (h : buildFragment table mtt lid text0 (some t) maxLen = some c) :
    c.type.length = c.tokens.length
      ∧ ∀ m, c.mask = some m → m.length = c.tokens.length := by
  unfold buildFragment at h
  simp only [Option.isSome_some, Bool.true_and, bne_iff_ne, ne_eq,
    beq_iff_eq] at h
  split at h
  · exact absurd h (by simp)
  · split at h
    · exact absurd h (by simp)
    · next hal _ =>
      injection h with h
      subst h
      simp only [not_not] at hal
      constructor
      · simp [List.length_take, hal]
      · intro m hm
        split at hm
        · injection hm with hm
          subst hm
          simp [List.length_take, hal]
        · exact absurd hm (by simp)

/-- C9 (counterexample): at tag-mode `ast` with no code tag string
supplied, the returned example's code mask is present (`some []`, the
tag-mode is not subtoken) while the token sequence has two tokens, so
`len(mask) == len(tokens)` fails. -/
theorem process_examples_mask_length_counterexample :
    ((process_examples [] [] 0 "a b" none "c" none none 10 10 10 "ast" "ast"
        false true).map fun e => (e.code.mask, e.code.tokens.length))
      = some (some [], 2) ∧ List.length ([] : List Nat) ≠ 2 := by
  exact ⟨rfl, by decide⟩

/-- C9 (amended): in every example returned by `process_examples`, the
length invariants hold for each fragment whose tag string was actually
supplied: `len(type) == len(tokens)`, and `len(mask) == len(tokens)`
whenever the mask is present; when a tag string is not supplied, the
type sequence (and the mask, present whenever the tag-mode is not
subtoken) is empty regardless of the token count. -/
theorem process_examples_annotation_lengths (T A : TagMap) (langId : Nat)
    (source : String) (sourceTag : Option String) (cfgSource : String)
    (cfgTag : Option String) (target : Option String)
    (maxSrcLen maxCfgLen maxTgtLen : Nat) (codeTagType cfgTagType : String)
    (uncase testSplit : Bool) (ex : Example)
    (h : process_examples T A langId source sourceTag cfgSource cfgTag target
        maxSrcLen maxCfgLen maxTgtLen codeTagType cfgTagType
        uncase testSplit = some ex) :
    ((∀ st, sourceTag = some st →
        ex.code.type.length = ex.code.tokens.length
          ∧ ∀ m, ex.code.mask = some m → m.length = ex.code.tokens.length)
      ∧ (sourceTag = none → ex.code.type = []
          ∧ ∀ m, ex.code.mask = some m → m = []))
    ∧ ((∀ ct, cfgTag = some ct →
        ex.cfg.type.length = ex.cfg.tokens.length
          ∧ ∀ m, ex.cfg.mask = some m → m.length = ex.cfg.tokens.length)
      ∧ (cfgTag = none → ex.cfg.type = []
          ∧ ∀ m, ex.cfg.mask = some m → m = [])) := by
  have main : ∀ (table : TagMap) (mtt : String) (text0 : String)
      (tag : Option String) (maxLen : Nat) (c : Code),
      buildFragment table mtt langId text0 tag maxLen = some c →
      ((∀ st, tag = some st →
          c.type.length = c.tokens.length
            ∧ ∀ m, c.mask = some m → m.length = c.tokens.length)
        ∧ (tag = none → c.type = [] ∧ ∀ m, c.mask = some m → m = [])) := by
    intro table mtt text0 tag maxLen c hc
    cases tag with
    | none =>
      refine ⟨by intro st hst; exact absurd hst (by simp), fun _ => ?_⟩
      unfold buildFragment at hc
      simp only [Option.isSome_none, Bool.false_and, Bool.false_eq_true,
        if_false] at hc
      split at hc
      · exact absurd hc (by simp)
      · injection hc with hc
        subst hc
        refine ⟨by simp, fun m hm => ?_⟩
        simp only at hm
        split at hm
        · injection hm with hm
          subst hm
          simp
        · exact absurd hm (by simp)
    | some t =>
      refine ⟨fun st hst => ?_, by intro hn; exact absurd hn (by simp)⟩
      injection hst with hst
      subst hst
      exact buildFragment_some_lengths table mtt langId text0 t maxLen c hc
  rcases hc : buildFragment
      (if codeTagType == "subtoken" then T else A) codeTagType langId
      source sourceTag maxSrcLen with _ | code
  · rw [process_examples, hc] at h
    exact absurd h (by simp)
  · rcases hf : buildFragment
        (if codeTagType == "subtoken" then T else A) cfgTagType langId
        cfgSource cfgTag maxCfgLen with _ | cfg
    · rw [process_examples, hc, hf] at h
      exact absurd h (by simp)
    · have hcode := main _ codeTagType source sourceTag maxSrcLen code hc
      have hcfg := main _ cfgTagType cfgSource cfgTag maxCfgLen cfg hf
      rw [process_examples, hc, hf] at h
      rcases target with _ | tgt
      · dsimp only at h
        simp only [Option.some.injEq] at h
        subst h
        exact ⟨hcode, hcfg⟩
      · dsimp only at h
        rcases hs : buildSummary uncase testSplit maxTgtLen tgt with _ | s
        · rw [hs] at h
          exact absurd h (by simp)
        · rw [hs] at h
          simp only [Option.some.injEq] at h
          subst h
          exact ⟨hcode, hcfg⟩

/-- C9 (amended, witness): a run with both tag strings supplied, at a
concrete input where the invariants are checked numerically. -/
theorem process_examples_annotation_lengths_witness :
    (((process_examples [("N", 0)] [("N", 2)] 1 "a b" (some "N N") "c"
        (some "N") none 10 10 10 "ast" "ast" false true).map
          fun e => (e.code.type.length, e.code.tokens.length,
            e.cfg.type.length, e.cfg.tokens.length))
      = some (2, 2, 1, 1)) ∧ (2 : Nat) = 2 := by
  refine ⟨rfl, ?_⟩
  have h := process_examples_annotation_lengths [("N", 0)] [("N", 2)] 1
    "a b" (some "N N") "c" (some "N") none 10 10 10 "ast" "ast" false true
    { code := { text := "a b", language := 1, tokens := ["a", "b"],
                type := [2, 2], mask := some [1, 1] },
      cfg := { text := "c", language := 1, tokens := ["c"],
               type := [2], mask := some [1] },
      summary := none } rfl
  have h2 := (h.1.1 "N N" rfl).1
  exact h2

theorem buildSummary_some_tokens (uncase testSplit : Bool)
    (maxTgtLen : Nat) (target : String) (s : Summary)
    (h : buildSummary uncase testSplit maxTgtLen target = some s) :
    s.tokens = BOS_WORD ::
      ((if testSplit then pySplit (if uncase then pyToLower target else target)
        else (pySplit (if uncase then pyToLower target else target)).take
          maxTgtLen) ++ [EOS_WORD]) := by
  simp only [buildSummary] at h
  revert h
  generalize (if testSplit = true
      then pySplit (if uncase = true then pyToLower target else target)
      else (pySplit
        (if uncase = true then pyToLower target else target)).take
          maxTgtLen) = toks
  intro h
  split at h
  · exact absurd h (by simp)
  · injection h with h
    subst h
    rfl

/-- C8: the test-mode flag affects only summary truncation: for
identical code/cfg inputs that yield an example in both modes and a
target with more than `max_tgt_len` tokens, `test_split = false` yields
a framed-and-truncated summary of length `max_tgt_len + 2` while
`test_split = true` yields the framed, untruncated summary, and the
`code` and `cfg` fields of the two examples are identical. -/
theorem process_examples_test_split_scope (T A : TagMap) (langId : Nat)
    (source : String) (sourceTag : Option String) (cfgSource : String)
    (cfgTag : Option String) (tgt : String)
    (maxSrcLen maxCfgLen maxTgtLen : Nat) (codeTagType cfgTagType : String)
    (uncase : Bool) (ex1 ex2 : Example)
    (h1 : process_examples T A langId source sourceTag cfgSource cfgTag
        (some tgt) maxSrcLen maxCfgLen maxTgtLen codeTagType cfgTagType
        uncase false = some ex1)
    (h2 : process_examples T A langId source sourceTag cfgSource cfgTag
        (some tgt) maxSrcLen maxCfgLen maxTgtLen codeTagType cfgTagType
        uncase true = some ex2)
    (hlen : maxTgtLen <
      (pySplit (if uncase then pyToLower tgt else tgt)).length) :
    ex1.code = ex2.code ∧ ex1.cfg = ex2.cfg
      ∧ (ex1.summary.map fun s => s.tokens.length) = some (maxTgtLen + 2)
      ∧ (ex2.summary.map fun s => s.tokens)
          = some (BOS_WORD ::
              (pySplit (if uncase then pyToLower tgt else tgt)
                ++ [EOS_WORD])) := by
  rcases hc : buildFragment
      (if codeTagType == "subtoken" then T else A) codeTagType langId
      source sourceTag maxSrcLen with _ | code
  · rw [process_examples, hc] at h1
    exact absurd h1 (by simp)
  · rcases hf : buildFragment
        (if codeTagType == "subtoken" then T else A) cfgTagType langId
        cfgSource cfgTag maxCfgLen with _ | cfg
    · rw [process_examples, hc, hf] at h1
      dsimp only at h1
      exact absurd h1 (by simp)
    · rw [process_examples, hc, hf] at h1 h2
      dsimp only at h1 h2
      rcases hs1 : buildSummary uncase false maxTgtLen tgt with _ | s1
      · rw [hs1] at h1
        exact absurd h1 (by simp)
      · rcases hs2 : buildSummary uncase true maxTgtLen tgt with _ | s2
        · rw [hs2] at h2
          exact absurd h2 (by simp)
        · rw [hs1] at h1
          rw [hs2] at h2
          simp only [Option.some.injEq] at h1 h2
          subst h1
          subst h2
          have t1 := buildSummary_some_tokens uncase false maxTgtLen tgt s1 hs1
          have t2 := buildSummary_some_tokens uncase true maxTgtLen tgt s2 hs2
          refine ⟨rfl, rfl, ?_, ?_⟩
          · simp [t1, List.length_take, Nat.min_eq_left (Nat.le_of_lt hlen)]
          · simp [t2]

/-- C8 (witness): a three-token target with `max_tgt_len = 1`: the
non-test run frames and truncates to length 3, the test run keeps all
three tokens, and code/cfg agree. -/
theorem process_examples_test_split_scope_witness :
    1 < (pySplit "x y z").length
      ∧ ((some { text := "x", tokens := ["<s>", "x", "</s>"] } :
            Option Summary).map fun s => s.tokens.length) = some (1 + 2) := by
  refine ⟨by decide, ?_⟩
  have h := process_examples_test_split_scope [] [] 0 "a" none "c" none
    "x y z" 5 5 1 "ast" "ast" false
    { code := { text := "a", language := 0, tokens := ["a"], type := [],
                mask := some [] },
      cfg := { text := "c", language := 0, tokens := ["c"], type := [],
               mask := some [] },
      summary := some { text := "x", tokens := ["<s>", "x", "</s>"] } }
    { code := { text := "a", language := 0, tokens := ["a"], type := [],
                mask := some [] },
      cfg := { text := "c", language := 0, tokens := ["c"], type := [],
               mask := some [] },
      summary := some { text := "x y z",
                        tokens := ["<s>", "x", "y", "z", "</s>"] } }
    rfl rfl (by decide)
  exact h.2.2.1

/-! ## Counter lemmas -/

/-- The key list of a `Counter`, in first-seen order. -/
def counterKeys (c : Counter) : List String := c.map Prod.fst

/-- The normalized token stream `load_words` tallies, in tally order:
all tokens of all requested fields of all examples. -/
def allNormTokens (normalize : String → String) (examples : List Example)
    (fields : List Field) : List String :=
  examples.flatMap fun ex =>
    fields.flatMap fun f => (getTokens ex f).map normalize

theorem counterAdd_keys (c : Counter) (w : String) :
    counterKeys (counterAdd c w)
      = if w ∈ counterKeys c then counterKeys c
        else counterKeys c ++ [w] := by
  unfold counterAdd counterKeys
  have hf : (Prod.fst ∘ fun p : String × Nat =>
      if p.1 == w then (p.1, p.2 + 1) else p) = Prod.fst := by
    funext p
    by_cases h : p.1 = w <;> simp [h]
  split
  · next hany =>
    simp only [List.any_eq_true, beq_iff_eq] at hany
    obtain ⟨p, hp, hpw⟩ := hany
    rw [List.map_map, hf, if_pos (List.mem_map.mpr ⟨p, hp, hpw⟩)]
  · next hany =>
    simp only [List.any_eq_true, beq_iff_eq, not_exists, not_and] at hany
    have hw : w ∉ List.map Prod.fst c := by
      intro hmem
      obtain ⟨p, hp, hpw⟩ := List.mem_map.mp hmem
      exact hany p hp hpw
    rw [List.map_append, if_neg hw]
    rfl

theorem counterAdd_keys_mem (c : Counter) (w x : String) :
    x ∈ counterKeys (counterAdd c w) ↔ x ∈ counterKeys c ∨ x = w := by
  rw [counterAdd_keys]
  split
  · next hw =>
    constructor
    · exact Or.inl
    · rintro (h | rfl)
      · exact h
      · exact hw
  · simp

theorem counterAdd_keys_nodup (c : Counter) (w : String)
    (h : (counterKeys c).Nodup) : (counterKeys (counterAdd c w)).Nodup := by
  rw [counterAdd_keys]
  split
  · exact h
  · next hw =>
    simp [List.nodup_append, h, hw]

theorem counterUpdate_cons (c : Counter) (w : String) (ws : List String) :
    counterUpdate c (w :: ws) = counterUpdate (counterAdd c w) ws := rfl

theorem counterUpdate_keys_mem (ws : List String) :
    ∀ (c : Counter) (x : String),
      x ∈ counterKeys (counterUpdate c ws) ↔ x ∈ counterKeys c ∨ x ∈ ws := by
  induction ws with
  | nil => intro c x; simp [counterUpdate]
  | cons w ws ih =>
    intro c x
    rw [counterUpdate_cons, ih, counterAdd_keys_mem]
    simp
    tauto

theorem counterUpdate_keys_nodup (ws : List String) :
    ∀ c : Counter, (counterKeys c).Nodup →
      (counterKeys (counterUpdate c ws)).Nodup := by
  induction ws with
  | nil => intro c h; exact h
  | cons w ws ih =>
    intro c h
    rw [counterUpdate_cons]
    exact ih _ (counterAdd_keys_nodup c w h)

theorem counterUpdate_append (c : Counter) (l1 l2 : List String) :
    counterUpdate c (l1 ++ l2) = counterUpdate (counterUpdate c l1) l2 :=
  List.foldl_append counterAdd c l1 l2

theorem counterUpdate_nil_keys_toFinset (ws : List String) :
    (counterKeys (counterUpdate [] ws)).toFinset = ws.toFinset := by
  ext x
  simp only [List.mem_toFinset]
  rw [counterUpdate_keys_mem]
  simp [counterKeys]

theorem counter_length_eq_keys (c : Counter) :
    c.length = (counterKeys c).length := by
  simp [counterKeys]

theorem counterUpdate_nil_length (ws : List String) :
    (counterUpdate [] ws).length = ws.toFinset.card := by
  rw [counter_length_eq_keys]
  have hnd : (counterKeys (counterUpdate [] ws)).Nodup :=
    counterUpdate_keys_nodup ws [] (by simp [counterKeys])
  rw [← List.toFinset_card_of_nodup hnd, counterUpdate_nil_keys_toFinset]

theorem fields_tally_eq (normalize : String → String) (ex : Example)
    (fs : List Field) :
    ∀ c : Counter,
      fs.foldl (fun c f => counterUpdate c ((getTokens ex f).map normalize)) c
        = counterUpdate c
            (fs.flatMap fun f => (getTokens ex f).map normalize) := by
  induction fs with
  | nil => intro c; rfl
  | cons f fs ih =>
    intro c
    rw [List.foldl_cons, List.flatMap_cons, counterUpdate_append, ih]

theorem loadWordsCount_eq_tally (normalize : String → String)
    (examples : List Example) (fields : List Field) :
    loadWordsCount normalize examples fields
      = counterUpdate [] (allNormTokens normalize examples fields) := by
  unfold loadWordsCount allNormTokens
  generalize ([] : Counter) = c
  induction examples generalizing c with
  | nil => rfl
  | cons ex exs ih =>
    rw [List.foldl_cons, List.flatMap_cons, counterUpdate_append,
      fields_tally_eq, ih]

/-! ## Stable descending sort lemmas -/

theorem insertDesc_perm (p : String × Nat) (l : Counter) :
    (insertDesc p l).Perm (p :: l) := by
  induction l with
  | nil => rfl
  | cons q qs ih =>
    unfold insertDesc
    split
    · rfl
    · exact (ih.cons q).trans (List.Perm.swap p q qs)

theorem sortDesc_perm (l : Counter) : (sortDesc l).Perm l := by
  induction l with
  | nil => rfl
  | cons p ps ih =>
    exact (insertDesc_perm p (sortDesc ps)).trans (ih.cons p)

theorem insertDesc_sorted (p : String × Nat) (l : Counter)
    (h : l.Pairwise fun a b => b.2 ≤ a.2) :
    (insertDesc p l).Pairwise fun a b => b.2 ≤ a.2 := by
  induction l with
  | nil => simp [insertDesc]
  | cons q qs ih =>
    unfold insertDesc
    split
    · next hq =>
      refine List.Pairwise.cons ?_ h
      intro b hb
      rw [List.mem_cons] at hb
      rcases hb with rfl | hb
      · exact hq
      · have := List.rel_of_pairwise_cons h hb
        omega
    · next hq =>
      rw [List.pairwise_cons] at h
      refine List.Pairwise.cons ?_ (ih h.2)
      intro b hb
      have hb2 := (insertDesc_perm p qs).mem_iff.mp hb
      rw [List.mem_cons] at hb2
      rcases hb2 with rfl | hb'
      · omega
      · exact h.1 b hb'

theorem sortDesc_sorted (l : Counter) :
    (sortDesc l).Pairwise fun a b => b.2 ≤ a.2 := by
  induction l with
  | nil => simp [sortDesc]
  | cons p ps ih => exact insertDesc_sorted p (sortDesc ps) ih

theorem insertDesc_filter (p : String × Nat) (l : Counter) (c : Nat) :
    (insertDesc p l).filter (fun x => x.2 == c)
      = if p.2 == c then p :: l.filter (fun x => x.2 == c)
        else l.filter (fun x => x.2 == c) := by
  induction l with
  | nil =>
    by_cases hp : p.2 = c <;> simp [insertDesc, List.filter_cons, hp]
  | cons q qs ih =>
    unfold insertDesc
    split
    · next hq =>
      by_cases hp : p.2 = c <;> simp [List.filter_cons, hp]
    · next hq =>
      have hqc : (q.2 == c) = (q.2 == c) := rfl
      by_cases hp : p.2 == c
      · have hqne : ¬ (q.2 == c) = true := by
          simp only [beq_iff_eq] at hp ⊢
          omega
        simp only [List.filter_cons, ih, hp, if_true]
        simp [hqne]
      · simp only [List.filter_cons, ih, hp, if_false]
        simp [hp]

theorem sortDesc_filter (l : Counter) (c : Nat) :
    (sortDesc l).filter (fun x => x.2 == c)
      = l.filter (fun x => x.2 == c) := by
  induction l with
  | nil => rfl
  | cons p ps ih =>
    rw [sortDesc, insertDesc_filter, List.filter_cons]
    split
    · next hp => simp [hp, ih]
    · next hp => simp [hp, ih]

/-- A one-example corpus with three distinct code tokens. -/
def exampleABC : Example :=
  { code := { text := "a b c", language := 0, tokens := ["a", "b", "c"],
              type := [], mask := none },
    cfg := { text := "d", language := 0, tokens := ["d"], type := [],
             mask := none },
    summary := none }

/-- C3 (counterexample): with `dict_size = 2` (which is at most 2) and
three distinct normalized words in the selected fields, `load_words`
retains only the two first-ranked words, so a size of at most 2 is a
cap of that size, not "no effective cap". -/
theorem load_words_small_cap_counterexample :
    load_words id [exampleABC] [Field.code] (some 2) = ["a", "b"]
      ∧ "c" ∈ allNormTokens id [exampleABC] [Field.code]
      ∧ "c" ∉ (["a", "b"] : List String) := by
  exact ⟨rfl, by decide, by decide⟩

/-- C3 (amended): the retained-word count of `load_words`: with no
dictionary size every distinct normalized word is retained; with a
given size greater than 2 the count is capped to size − 2 (two slots
reserved for the padding and unknown-token symbols); with a given size
of at most 2 the subtraction is skipped but the size itself still caps
the retained-word count (`Counter.most_common(n)` returns `n`
entries), so a size of at most 2 is not "no effective cap". -/
theorem load_words_cap_arith (normalize : String → String)
    (examples : List Example) (fields : List Field)
    (dictSize : Option Nat) :
    (load_words normalize examples fields dictSize).length =
      match dictSize with
      | none => (allNormTokens normalize examples fields).toFinset.card
      | some n =>
        min (if 2 < n then n - 2 else n)
          (allNormTokens normalize examples fields).toFinset.card := by
  have hlen : (loadWordsCount normalize examples fields).length
      = (allNormTokens normalize examples fields).toFinset.card := by
    rw [loadWordsCount_eq_tally, counterUpdate_nil_length]
  have hsort : (sortDesc (loadWordsCount normalize examples fields)).length
      = (loadWordsCount normalize examples fields).length :=
    (sortDesc_perm _).length_eq
  cases dictSize with
  | none =>
    simp only [load_words, mostCommon, adjustDictSize, List.length_map]
    rw [hsort, hlen]
  | some n =>
    simp only [load_words, mostCommon, adjustDictSize, List.length_map,
      List.length_take]
    rw [hsort, hlen]

/-- C6: with `dict_size = 102` and more than 100 distinct normalized
words in the selected fields, `load_words` retains exactly 100 words
(102 − 2 reserved): the result is the first 100 entries of the stable
descending-count ranking of the tally; every excluded tallied word's
count is at most every retained word's count; and within each
frequency class the ranking preserves the tally's first-seen order
(ties among equal-frequency words are broken by first-seen order). -/
theorem load_words_cap_102 (normalize : String → String)
    (examples : List Example) (fields : List Field)
    (h : 100 < (allNormTokens normalize examples fields).toFinset.card) :
    (load_words normalize examples fields (some 102)).length = 100
      ∧ (load_words normalize examples fields (some 102)).Nodup
      ∧ load_words normalize examples fields (some 102)
          = ((sortDesc (loadWordsCount normalize examples fields)).take
              100).map Prod.fst
      ∧ (∀ p ∈ loadWordsCount normalize examples fields,
           p.1 ∉ load_words normalize examples fields (some 102) →
           ∀ q ∈ loadWordsCount normalize examples fields,
             q.1 ∈ load_words normalize examples fields (some 102) →
             p.2 ≤ q.2)
      ∧ (∀ c : Nat,
          (sortDesc (loadWordsCount normalize examples fields)).filter
              (fun x => x.2 == c)
            = (loadWordsCount normalize examples fields).filter
                (fun x => x.2 == c)) := by
  have hR : load_words normalize examples fields (some 102)
      = ((sortDesc (loadWordsCount normalize examples fields)).take
          100).map Prod.fst := by
    simp [load_words, mostCommon, adjustDictSize]
  have hlen : (loadWordsCount normalize examples fields).length
      = (allNormTokens normalize examples fields).toFinset.card := by
    rw [loadWordsCount_eq_tally, counterUpdate_nil_length]
  have hsort : (sortDesc (loadWordsCount normalize examples fields)).length
      = (loadWordsCount normalize examples fields).length :=
    (sortDesc_perm _).length_eq
  have hkeys : ((sortDesc (loadWordsCount normalize examples
      fields)).map Prod.fst).Nodup := by
    have h1 : ((loadWordsCount normalize examples fields).map
        Prod.fst).Nodup := by
      rw [loadWordsCount_eq_tally]
      exact counterUpdate_keys_nodup _ [] (by simp [counterKeys])
    exact (((sortDesc_perm _).map Prod.fst).nodup_iff).mpr h1
  have hlength : (load_words normalize examples fields (some 102)).length
      = 100 := by
    rw [hR]
    simp only [List.length_map, List.length_take]
    omega
  refine ⟨hlength, ?_, hR, ?_, fun c => sortDesc_filter _ c⟩
  · rw [hR]
    exact ((List.take_sublist 100 _).map Prod.fst).nodup hkeys
  · intro p hp hpR q hq hqR
    rw [hR] at hpR hqR
    set s := sortDesc (loadWordsCount normalize examples fields) with hs
    have hps : p ∈ s := (sortDesc_perm _).symm.subset hp
    have hqs : q ∈ s := (sortDesc_perm _).symm.subset hq
    have hpdrop : p ∈ s.drop 100 := by
      rcases (List.mem_append.mp
        (by rw [List.take_append_drop 100 s]; exact hps) :
          p ∈ s.take 100 ∨ p ∈ s.drop 100) with htk | hdp
      · exact absurd (List.mem_map.mpr ⟨p, htk, rfl⟩) hpR
      · exact hdp
    obtain ⟨q', hq't, hq'1⟩ := List.mem_map.mp hqR
    have hq's : q' ∈ s := (List.take_sublist 100 s).subset hq't
    have hqq' : q' = q :=
      List.inj_on_of_nodup_map hkeys hq's hqs (by rw [hq'1])
    have hpair := sortDesc_sorted (loadWordsCount normalize examples fields)
    rw [← hs, ← List.take_append_drop 100 s, List.pairwise_append] at hpair
    have := hpair.2.2 q' hq't p hpdrop
    rw [hqq'] at this
    exact this

/-- The 101-distinct-word corpus used in the capping witness. -/
def bigExample : Example :=
  { code := { text := "", language := 0,
              tokens := (List.range 101).map fun n => Nat.repr n,
              type := [], mask := none },
    cfg := { text := "z", language := 0, tokens := ["z"], type := [],
             mask := none },
    summary := none }

set_option maxRecDepth 40000 in
/-- C6 (witness): the 101-word corpus exceeds 100 distinct words, and
the theorem yields a retained count of exactly 100. -/
theorem load_words_cap_102_witness :
    100 < (allNormTokens id [bigExample] [Field.code]).toFinset.card
      ∧ (load_words id [bigExample] [Field.code] (some 102)).length
          = 100 := by
  refine ⟨by decide, ?_⟩
  exact (load_words_cap_102 id [bigExample] [Field.code] (by decide)).1

/-! ## top_summary_words lemmas (C10) -/

theorem mem_counterAdd (c : Counter) (w : String) (p : String × Nat)
    (hp : p ∈ counterAdd c w) : p.1 ∈ counterKeys c ∨ p.1 = w := by
  have hmem : p.1 ∈ counterKeys (counterAdd c w) :=
    List.mem_map_of_mem Prod.fst hp
  exact (counterAdd_keys_mem c w p.1).mp hmem

theorem mem_mostCommon (c : Counter) (n : Option Nat) (p : String × Nat)
    (hp : p ∈ mostCommon c n) : p ∈ c := by
  cases n with
  | none => exact (sortDesc_perm c).subset hp
  | some k =>
    exact (sortDesc_perm c).subset ((List.take_sublist k _).subset hp)

/-- The example with its summary restricted to the tokens whose
normalization belongs to the vocabulary (the tokens
`top_summary_words` actually counts). -/
def filterOOV (normalize : String → String) (wordDict : List String)
    (ex : Example) : Example :=
  { ex with summary := ex.summary.map fun s =>
      { s with tokens :=
          s.tokens.filter fun w => decide (normalize w ∈ wordDict) } }

theorem tsw_token_fold_mem (normalize : String → String)
    (wordDict : List String) (toks : List String) :
    ∀ c : Counter, (∀ p ∈ c, p.1 ∈ wordDict) →
      ∀ p ∈ toks.foldl
        (fun c w =>
          let w' := normalize w
          if w' ∈ wordDict then counterAdd c w' else c) c,
        p.1 ∈ wordDict := by
  induction toks with
  | nil => intro c hc; exact hc
  | cons w ws ih =>
    intro c hc
    rw [List.foldl_cons]
    refine ih _ ?_
    intro p hp
    dsimp only at hp
    split at hp
    · next hw =>
      rcases mem_counterAdd c (normalize w) p hp with hk | he
      · obtain ⟨q, hq, hq1⟩ := List.mem_map.mp hk
        rw [← hq1]
        exact hc q hq
      · rw [he]
        exact hw
    · exact hc p hp

theorem tsw_example_fold_mem (normalize : String → String)
    (wordDict : List String) (examples : List Example) :
    ∀ c : Counter, (∀ p ∈ c, p.1 ∈ wordDict) →
      ∀ p ∈ examples.foldl
        (fun c ex =>
          (match ex.summary with
           | some s => s.tokens
           | none => []).foldl
            (fun c w =>
              let w' := normalize w
              if w' ∈ wordDict then counterAdd c w' else c) c) c,
        p.1 ∈ wordDict := by
  induction examples with
  | nil => intro c hc; exact hc
  | cons ex exs ih =>
    intro c hc
    rw [List.foldl_cons]
    exact ih _ (tsw_token_fold_mem normalize wordDict _ c hc)

theorem tsw_token_fold_filter (normalize : String → String)
    (wordDict : List String) (toks : List String) :
    ∀ c : Counter,
      toks.foldl
        (fun c w =>
          let w' := normalize w
          if w' ∈ wordDict then counterAdd c w' else c) c
      = (toks.filter fun w => decide (normalize w ∈ wordDict)).foldl
          (fun c w =>
            let w' := normalize w
            if w' ∈ wordDict then counterAdd c w' else c) c := by
  induction toks with
  | nil => intro c; rfl
  | cons w ws ih =>
    intro c
    by_cases hw : normalize w ∈ wordDict
    · simp only [List.foldl_cons, List.filter_cons, hw, decide_eq_true_eq,
        if_true]
      exact ih _
    · simp only [List.foldl_cons, List.filter_cons, hw, decide_eq_true_eq,
        if_false]
      exact ih _

/-- C10: `top_summary_words` ignores out-of-vocabulary words: every
entry of the returned top-K list is a vocabulary member, and the whole
result is unchanged when every summary token whose normalization is
not in the vocabulary is removed beforehand (out-of-vocabulary tokens
contribute nothing and cause no error — the embedded function is
total). -/
theorem top_summary_words_ignores_oov (normalize : String → String)
    (topK : Nat) (examples : List Example) (wordDict : List String) :
    (∀ p ∈ top_summary_words normalize topK examples wordDict,
        p.1 ∈ wordDict)
      ∧ top_summary_words normalize topK examples wordDict
          = top_summary_words normalize topK
              (examples.map (filterOOV normalize wordDict)) wordDict := by
  constructor
  · intro p hp
    have hc := mem_mostCommon _ (some topK) p hp
    exact tsw_example_fold_mem normalize wordDict examples []
      (by intro q hq; exact absurd hq (List.not_mem_nil q)) p hc
  · unfold top_summary_words
    congr 1
    generalize ([] : Counter) = c
    induction examples generalizing c with
    | nil => rfl
    | cons ex exs ih =>
      rw [List.map_cons, List.foldl_cons, List.foldl_cons, ih]
      congr 1
      cases hs : ex.summary with
      | none => simp [filterOOV, hs]
      | some s =>
        simp only [filterOOV, hs, Option.map_some]
        exact tsw_token_fold_filter normalize wordDict s.tokens c

/-! ## build_word_dict determinism (C2) -/

theorem vocab_foldl_add_mem (l : List String) :
    ∀ (v : Vocabulary) (x : String),
      x ∈ (l.foldl Vocabulary.add v).words ↔ x ∈ v.words ∨ x ∈ l := by
  induction l with
  | nil => intro v x; simp
  | cons w ws ih =>
    intro v x
    rw [List.foldl_cons, ih]
    unfold Vocabulary.add
    split
    · next hw =>
      simp only [List.mem_cons]
      constructor
      · rintro (h | h)
        · exact Or.inl h
        · exact Or.inr (Or.inr h)
      · rintro (h | rfl | h)
        · exact Or.inl h
        · exact Or.inl hw
        · exact Or.inr h
    · simp only [List.mem_append, List.mem_singleton, List.mem_cons]
      tauto

/-- C2 (counterexample): the word-to-index assignment of
`build_word_dict` depends on the iteration order of the Python `set`
returned by `load_words`, which is driven by the process's string-hash
seed: two valid iteration orders of the same three-word set (as occur
in two runs with different `PYTHONHASHSEED`) assign different indices,
so the output is not bit-for-bit reproducible across runs. -/
theorem build_word_dict_iteration_order_counterexample :
    (build_word_dict id id [exampleABC] [Field.code] none false).words
        = ["<blank>", "<unk>", "a", "b", "c"]
      ∧ (build_word_dict (fun l => l.reverse) id [exampleABC] [Field.code]
          none false).words = ["<blank>", "<unk>", "c", "b", "a"]
      ∧ (load_words id [exampleABC] [Field.code] none).reverse.Perm
          (load_words id [exampleABC] [Field.code] none)
      ∧ build_word_dict id id [exampleABC] [Field.code] none false
          ≠ build_word_dict (fun l => l.reverse) id [exampleABC]
              [Field.code] none false := by
  exact ⟨rfl, rfl, List.reverse_perm _, by decide⟩

/-- C2 (amended): `load_words` is a function of its inputs (the tallying
and ranking are deterministic: two runs produce the same retained-word
list), and the CONTENTS of the vocabulary built by `build_word_dict`
are the same under every iteration order of the retained-word set; with
one fixed iteration order (one process, one hash seed) the full
word-to-index assignment is identical between runs; across different
iteration orders only the contents, not the index assignment, are
guaranteed to agree. -/
theorem build_word_dict_deterministic
    (enum1 enum2 : List String → List String)
    (normalize : String → String) (examples : List Example)
    (fields : List Field) (dictSize : Option Nat) (noSpecialToken : Bool)
    (h1 : ∀ l, (enum1 l).Perm l) (h2 : ∀ l, (enum2 l).Perm l) :
    load_words normalize examples fields dictSize
        = load_words normalize examples fields dictSize
      ∧ (build_word_dict enum1 normalize examples fields dictSize
          noSpecialToken).words.toFinset
        = (build_word_dict enum2 normalize examples fields dictSize
            noSpecialToken).words.toFinset
      ∧ (enum1 = enum2 →
          build_word_dict enum1 normalize examples fields dictSize
              noSpecialToken
            = build_word_dict enum2 normalize examples fields dictSize
                noSpecialToken) := by
  refine ⟨rfl, ?_, fun he => by rw [he]⟩
  ext x
  simp only [List.mem_toFinset]
  unfold build_word_dict
  rw [vocab_foldl_add_mem, vocab_foldl_add_mem,
    (h1 (load_words normalize examples fields dictSize)).mem_iff,
    (h2 (load_words normalize examples fields dictSize)).mem_iff]

/-- C2 (amended, witness): contents agree between the identity
iteration order and the reversed one on a concrete corpus. -/
theorem build_word_dict_deterministic_witness :
    (build_word_dict id id [exampleABC] [Field.code] none
        false).words.toFinset
      = (build_word_dict (fun l => l.reverse) id [exampleABC] [Field.code]
          none false).words.toFinset :=
  (build_word_dict_deterministic id (fun l => l.reverse) id [exampleABC]
    [Field.code] none false (fun l => List.Perm.refl l)
    (fun l => List.reverse_perm l)).2.1

/-! ## load_data lemmas (C4, C7) -/

/-- The line count a stream contributes to the length check: its own
line count for a present file, the synthesized placeholder count (the
src line count) for an absent one. -/
def effLen (srcLen : Nat) : Option (List String) → Nat
  | some ls => ls.length
  | none => srcLen

/-- The condition the `assert` at line 144 checks: equal lengths of
`sources`, `source_tags`, `targets` and `cfg` — the cfg tag list does
not appear in it. -/
def lengthsOk (srcLines cfgLines : List String)
    (tgtLines srcTagLines : Option (List String)) : Prop :=
  srcLines.length = effLen srcLines.length srcTagLines
    ∧ effLen srcLines.length srcTagLines = effLen srcLines.length tgtLines
    ∧ effLen srcLines.length tgtLines = cfgLines.length

/-- The five-stream positional zip `load_data` iterates, with stripped
lines and placeholder synthesis for absent files. -/
def zippedTuples (srcLines cfgLines : List String)
    (tgtLines srcTagLines cfgTagLines : Option (List String)) : List Tup :=
  zip5 (srcLines.map pyStrip)
    (match srcTagLines with
     | some ls => ls.map fun l => some (pyStrip l)
     | none => List.replicate (srcLines.map pyStrip).length none)
    (cfgLines.map pyStrip)
    (match cfgTagLines with
     | some ls => ls.map fun l => some (pyStrip l)
     | none => List.replicate (srcLines.map pyStrip).length none)
    (match tgtLines with
     | some ls => ls.map fun l => some (pyStrip l)
     | none => List.replicate (srcLines.map pyStrip).length none)

theorem load_data_eq_ok (T A : TagMap) (langId : Nat) (args : Args)
    (srcLines cfgLines : List String)
    (tgtLines srcTagLines cfgTagLines : Option (List String))
    (maxExamples : Int) (dsName : String) (testSplit : Bool)
    (h : lengthsOk srcLines cfgLines tgtLines srcTagLines) :
    load_data T A langId args srcLines cfgLines tgtLines srcTagLines
        cfgTagLines maxExamples dsName testSplit
      = Except.ok (loadLoop T A langId args testSplit dsName maxExamples
          (zippedTuples srcLines cfgLines tgtLines srcTagLines cfgTagLines)
          []) := by
  obtain ⟨ha, hb, hc⟩ := h
  unfold load_data zippedTuples
  rw [if_pos]
  cases srcTagLines <;> cases tgtLines <;>
    simp_all [effLen, List.length_map, List.length_replicate]

theorem load_data_eq_error (T A : TagMap) (langId : Nat) (args : Args)
    (srcLines cfgLines : List String)
    (tgtLines srcTagLines cfgTagLines : Option (List String))
    (maxExamples : Int) (dsName : String) (testSplit : Bool)
    (h : ¬ lengthsOk srcLines cfgLines tgtLines srcTagLines) :
    load_data T A langId args srcLines cfgLines tgtLines srcTagLines
        cfgTagLines maxExamples dsName testSplit
      = Except.error "unequal line counts across input files" := by
  unfold load_data
  rw [if_neg]
  intro hcond
  apply h
  obtain ⟨ha, hb, hc⟩ := hcond
  cases srcTagLines <;> cases tgtLines <;>
    simp_all [lengthsOk, effLen, List.length_map, List.length_replicate]

/-- C4 (counterexample): a present cfg tag file with one line against
two-line src/cfg/tgt files: the `assert` at line 144 does not cover
the cfg tag list, so `load_data` does not abort; the positional zip
silently truncates to the single aligned prefix line and one example
is produced. -/
theorem load_data_cfg_tag_mismatch_counterexample :
    ((load_data [] [] 0 ⟨10, 10, 10, "ast", "ast", false⟩
        ["a", "b"] ["c", "d"] (some ["t", "u"]) none (some ["N"])
        (-1) "java" false).toOption.map List.length) = some 1
      ∧ (["N"] : List String).length ≠ (["a", "b"] : List String).length := by
  exact ⟨rfl, by decide⟩

/-- C4 (amended): the fatal precondition of `load_data` covers exactly
the line counts of the src, src-tag, tgt and cfg streams (with absent
optional files counted at the src length): whenever those four counts
are not all equal the load aborts with an error before producing any
example, and whenever they are equal the load succeeds — in particular
the optional cfg tag file is NOT covered by the check, and a
mismatched cfg tag file is silently absorbed by the positional zip
(truncating to the shortest stream) instead of aborting. -/
theorem load_data_fatal_length_check (T A : TagMap) (langId : Nat)
    (args : Args) (srcLines cfgLines : List String)
    (tgtLines srcTagLines cfgTagLines : Option (List String))
    (maxExamples : Int) (dsName : String) (testSplit : Bool) :
    ((load_data T A langId args srcLines cfgLines tgtLines srcTagLines
        cfgTagLines maxExamples dsName testSplit).toOption = none
      ↔ ¬ lengthsOk srcLines cfgLines tgtLines srcTagLines) := by
  by_cases h : lengthsOk srcLines cfgLines tgtLines srcTagLines
  · rw [load_data_eq_ok T A langId args srcLines cfgLines tgtLines
      srcTagLines cfgTagLines maxExamples dsName testSplit h]
    simp [Except.toOption, h]
  · rw [load_data_eq_error T A langId args srcLines cfgLines tgtLines
      srcTagLines cfgTagLines maxExamples dsName testSplit h]
    simp [Except.toOption, h]

/-- The number of zipped lines `load_data` accepts: those for which
the dataset name is recognized and `process_examples` yields an
example. -/
def countValid (T A : TagMap) (langId : Nat) (args : Args)
    (testSplit : Bool) (dsName : String) (tups : List Tup) : Nat :=
  (tups.filter fun t =>
    (dsName == "java" || dsName == "python")
      && (process_examples T A langId t.src t.srcTag t.cfg t.cfgTag t.tgt
          args.maxSrcLen args.maxCfgLen args.maxTgtLen args.codeTagType
          args.cfgTagType args.uncase testSplit).isSome).length

theorem loadLoop_length (T A : TagMap) (langId : Nat) (args : Args)
    (testSplit : Bool) (dsName : String) (m : Nat) :
    ∀ (tups : List Tup) (acc : List Example),
      acc.length ≤ m →
      m < acc.length + countValid T A langId args testSplit dsName tups →
      (loadLoop T A langId args testSplit dsName (m : Int) tups acc).length
        = m + 1 := by
  intro tups
  induction tups with
  | nil =>
    intro acc h1 h2
    simp only [countValid, List.filter_nil, List.length_nil] at h2
    omega
  | cons t ts ih =>
    intro acc h1 h2
    have hm1 : (m : Int) ≠ -1 := by omega
    by_cases hds : (dsName == "java" || dsName == "python") = true
    · rcases hpe : process_examples T A langId t.src t.srcTag t.cfg t.cfgTag
          t.tgt args.maxSrcLen args.maxCfgLen args.maxTgtLen
          args.codeTagType args.cfgTagType args.uncase testSplit
        with _ | ex
      · have hcv : countValid T A langId args testSplit dsName (t :: ts)
            = countValid T A langId args testSplit dsName ts := by
          simp [countValid, List.filter_cons, hds, hpe]
        simp only [loadLoop, hds, hpe, if_true]
        rw [if_neg (by omega)]
        exact ih acc h1 (by omega)
      · have hcv : countValid T A langId args testSplit dsName (t :: ts)
            = countValid T A langId args testSplit dsName ts + 1 := by
          simp [countValid, List.filter_cons, hds, hpe]
        simp only [loadLoop, hds, hpe, if_true]
        by_cases hbreak : m < acc.length + 1
        · have hlen : acc.length = m := by omega
          rw [if_pos (And.intro hm1 (by
            simp only [List.length_append, List.length_singleton]
            omega))]
          simp only [List.length_append, List.length_singleton]
          omega
        · rw [if_neg (by
            simp only [List.length_append, List.length_singleton]
            rintro ⟨-, hcon⟩
            omega)]
          refine ih (acc ++ [ex]) ?_ ?_
          · simp only [List.length_append, List.length_singleton]
            omega
          · simp only [List.length_append, List.length_singleton]
            omega
    · have hcv : countValid T A langId args testSplit dsName (t :: ts)
          = countValid T A langId args testSplit dsName ts := by
        simp [countValid, List.filter_cons, hds]
      simp only [loadLoop]
      rw [if_neg hds]
      rw [if_neg (by omega)]
      exact ih acc h1 (by omega)

/-- C7 (counterexample): with cap −2 (which is not the −1 sentinel) and
two valid lines, the break at line 165 fires right after the first
accepted example (0-or-1 exceeds −2 immediately): `load_data` returns
1 example, not m + 1 = −1, so the claim fails for negative caps other
than −1. -/
theorem load_data_negative_cap_counterexample :
    ((load_data [] [] 0 ⟨10, 10, 10, "ast", "ast", false⟩ ["a", "b"]
        ["c", "d"] none none none (-2) "java" false).toOption.map
          List.length) = some 1
      ∧ ((1 : Int) ≠ -2 + 1) := by
  exact ⟨rfl, by decide⟩

/-- C7 (amended): for a NONNEGATIVE cap m (any m ≥ 0, with −1 as the
no-cap sentinel), whenever more than m of the zipped lines yield valid
examples, `load_data` stops only after the accepted count exceeds m
and returns exactly m + 1 examples — a "stop after exceeding" bound,
not an exact cap; for negative caps other than −1 the break fires on
the first line (see the counterexample), so the claim does not extend
to them. -/
theorem load_data_cap_looseness (T A : TagMap) (langId : Nat)
    (args : Args) (srcLines cfgLines : List String)
    (tgtLines srcTagLines cfgTagLines : Option (List String))
    (m : Nat) (dsName : String) (testSplit : Bool)
    (hlen : lengthsOk srcLines cfgLines tgtLines srcTagLines)
    (hcount : m < countValid T A langId args testSplit dsName
      (zippedTuples srcLines cfgLines tgtLines srcTagLines cfgTagLines)) :
    ((load_data T A langId args srcLines cfgLines tgtLines srcTagLines
        cfgTagLines (m : Int) dsName testSplit).toOption.map List.length)
      = some (m + 1) := by
  rw [load_data_eq_ok T A langId args srcLines cfgLines tgtLines
    srcTagLines cfgTagLines (m : Int) dsName testSplit hlen]
  have hl := loadLoop_length T A langId args testSplit dsName m
    (zippedTuples srcLines cfgLines tgtLines srcTagLines cfgTagLines) []
    (by simp) (by simpa using hcount)
  simp [Except.toOption, hl]

/-- C7 (amended, witness): cap 1 with three valid lines returns exactly
2 examples. -/
theorem load_data_cap_looseness_witness :
    ((load_data [] [] 0 ⟨10, 10, 10, "ast", "ast", false⟩
        ["a", "b", "c"] ["d", "e", "f"] none none none ((1 : Nat) : Int)
        "java" false).toOption.map List.length) = some (1 + 1) := by
  exact load_data_cap_looseness [] [] 0 ⟨10, 10, 10, "ast", "ast", false⟩
    ["a", "b", "c"] ["d", "e", "f"] none none none 1 "java" false
    ⟨rfl, rfl, rfl⟩ (by decide)

end ByteGen
